import Mathlib

/-!
Verification of the task-orchestration layer in `tasks.py` (Invoke tasks for the
TestRift NUnit plugin).

The shallow embedding has two levels:

* an execution-state model (`St`) for the task *bodies*: a filesystem abstraction,
  a working-directory stack (Invoke's `c.cd` scopes), an ambient process
  environment, a trace of observable events (commands run, prints, filesystem
  effects), and an oracle assigning an exit status to each external command in
  order;

* a prerequisite-resolution model (`Task`, `execVisit`) for the `@task(pre=[...])`
  chains. The resolver itself lives in the Invoke library, outside this
  repository; it is modelled from the spec (depth-first walk in declared order,
  skipping tasks already executed in this invocation) and marked as such.

Python strings are Lean `String`s; `str.endswith(suf)` is modelled as
`suf.data.isSuffixOf s.data` on the underlying character lists, and paths are
lists of components relative to the repository root.
-/

namespace TestRift

/-- A filesystem path, as components relative to the repository root
(`".."` steps outside, matching `Path(__file__).parent.parent`). -/
abbrev Path := List String

/-- The filesystem abstraction: the set of existing directories, the set of
directories whose recursive deletion fails (to model `shutil.rmtree` errors),
and the file names currently sitting in the top-level `artifacts` directory. -/
structure FS where
  dirs : List Path
  undeletable : List Path
  artifactFiles : List String
deriving DecidableEq, Repr

/-- Observable events of one invocation, in order. `run` records the stack of
`c.cd` scopes in force, the command string, and the per-call environment
overlay. -/
inductive Event where
  | run (cwdStack : List Path) (cmd : String) (env : List (String × String))
  | print (msg : String)
  | mkdir (p : Path)
  | rmtree (p : Path) (ignoreErrors : Bool)
deriving DecidableEq, Repr

/-- Failure conditions surfaced by a task body (the spec's taxonomy). -/
inductive Err where
  | commandFailed (cmd : String)
  | missingCredential (msg : String)
  | deleteFailed (p : Path)
deriving DecidableEq, Repr

/-- Execution state threaded through a task body: filesystem, the stack of
working-directory scopes pushed by `c.cd` (empty = the ambient directory), the
ambient process environment, the event trace so far, and the exit statuses the
external toolchain will return for the successive commands (exhausted = all
remaining commands succeed). -/
structure St where
  fs : FS
  cwd : List Path
  osEnv : List (String × String)
  trace : List Event
  outcomes : List Bool
deriving DecidableEq, Repr

/-- A body either completes with a final state or fails with an error and the
state at the failure point (so the trace up to the failure is observable). -/
abbrev Res := Except (Err × St) St

/-- Sequencing: on failure the rest of the body does not run. -/
def andThen (r : Res) (f : St → Res) : Res :=
  match r with
  | .ok s => f s
  | .error e => .error e

/-- The state as left behind by a body, whether it completed or failed. -/
def afterSt (r : Res) : St :=
  match r with
  | .ok s => s
  | .error (_, s) => s

/-- `print(...)`: records the message, always succeeds. -/
def printE (msg : String) (s : St) : St :=
  { s with trace := s.trace ++ [Event.print msg] }

/-- `c.run(cmd, env=env)`: records the command with the current `cd`-scope stack
and the per-call environment overlay, consumes the next oracle outcome, and
fails with `CommandFailed` on a non-zero exit status. The overlay is an
argument of this one call only; the ambient `osEnv` is never touched. -/
def runCmd (cmd : String) (env : List (String × String)) (s : St) : Res :=
  if s.outcomes.headD true then
    .ok { s with trace := s.trace ++ [Event.run s.cwd cmd env],
                 outcomes := s.outcomes.tail }
  else
    .error (.commandFailed cmd,
      { s with trace := s.trace ++ [Event.run s.cwd cmd env],
               outcomes := s.outcomes.tail })

/-- `with c.cd(d): body` — Modelled from the spec: Invoke's `cd` context
manager (library code, not in this repository) pushes the directory on entry
and restores the previous directory on every exit path, normal completion or
failure, before control returns to the caller. -/
def withCd (d : Path) (body : St → Res) (s : St) : Res :=
  match body { s with cwd := s.cwd ++ [d] } with
  | .ok s₂ => .ok { s₂ with cwd := s.cwd }
  | .error (e, s₂) => .error (e, { s₂ with cwd := s.cwd })

/-- `out_dir.mkdir(exist_ok=True)`: creates the directory if absent; with
`exist_ok=True` an existing directory is not an error. -/
def mkdirExistOk (p : Path) (s : St) : St :=
  { s with trace := s.trace ++ [Event.mkdir p],
           fs := { s.fs with dirs := if p ∈ s.fs.dirs then s.fs.dirs else s.fs.dirs ++ [p] } }

/-- `shutil.rmtree(p, ignore_errors=ie)`: removes `p` and everything below it;
if `p` resists deletion, `ignore_errors=True` suppresses the error and
`ignore_errors=False` fails. Deleting `artifacts` also empties its files. -/
def rmtreeE (p : Path) (ignoreErrors : Bool) (s : St) : Res :=
  let s' := { s with trace := s.trace ++ [Event.rmtree p ignoreErrors] }
  if p ∈ s.fs.undeletable then
    if ignoreErrors then .ok s'
    else .error (.deleteFailed p, s')
  else
    .ok { s' with fs := { s'.fs with
            dirs := s'.fs.dirs.filter (fun d => ¬ p.isPrefixOf d),
            artifactFiles := if p = ["artifacts"] then [] else s'.fs.artifactFiles } }

/-- Runs a list of steps in order, stopping at the first failure. -/
def seqSteps (steps : List (St → Res)) (s : St) : Res :=
  match steps with
  | [] => .ok s
  | step :: rest => andThen (step s) (seqSteps rest)

/-- `os.getenv(name)` over the ambient environment. -/
def getenv (name : String) (env : List (String × String)) : Option String :=
  (env.find? (fun kv => kv.1 = name)).map (fun kv => kv.2)

/-- Python `str.endswith(suf)` on our string model. -/
def endsWith (suf : String) (s : String) : Bool :=
  suf.data.isSuffixOf s.data

/-! ### The task bodies, translated from `tasks.py` -/

/-- `src/TestRift.NUnit`, the library project directory. -/
def projDir : Path := ["src", "TestRift.NUnit"]

/-- `Example`, the example-tests directory. -/
def exampleDir : Path := ["Example"]

/-- The top-level `artifacts` directory. -/
def artifactsDir : Path := ["artifacts"]

/-- Body of `build`: builds the library and the example tests, each inside a
`c.cd` scope. -/
def build_body (s : St) : Res :=
  andThen (withCd projDir (runCmd "dotnet build" []) (printE "Building TestRift.NUnit library..." s))
    (fun s₁ => withCd exampleDir (runCmd "dotnet build" []) (printE "Building Example tests..." s₁))

/-- Body of `clean`: `rglob("bin")` / `rglob("obj")` directories are removed
with `ignore_errors=True`, then `artifacts` is removed if it exists, also with
`ignore_errors=True`. Each glob is taken on the filesystem as it stands when
the corresponding loop starts. -/
def clean_body (s : St) : Res :=
  andThen (seqSteps ((s.fs.dirs.filter (fun d => d.getLast? = some "bin")).map
      (fun p => rmtreeE p true)) s)
    (fun s₁ => andThen (seqSteps ((s₁.fs.dirs.filter (fun d => d.getLast? = some "obj")).map
        (fun p => rmtreeE p true)) s₁)
      (fun s₂ =>
        if artifactsDir ∈ s₂.fs.dirs then rmtreeE artifactsDir true s₂ else .ok s₂))

/-- Body of `pack`: creates `artifacts` (`exist_ok=True`), then runs
`dotnet pack` inside the project directory. -/
def pack_body (configuration : String) (s : St) : Res :=
  withCd projDir
    (runCmd ("dotnet pack -c " ++ configuration ++ " -o ..\\..\\artifacts") [])
    (mkdirExistOk artifactsDir s)

/-- The push command `publish` issues for one package file. -/
def pushCmd (pkg : String) (api_key : String) (source : String) : String :=
  "dotnet nuget push \"artifacts/" ++ pkg ++ "\" --api-key \"" ++ api_key ++
    "\" --source \"" ++ source ++ "\" --skip-duplicate"

/-- One iteration of the `publish` loop: skip names ending in `.snupkg`,
otherwise push. -/
def pushOne (api_key : String) (source : String) (pkg : String) (s : St) : Res :=
  if endsWith ".snupkg" pkg then .ok s
  else runCmd (pushCmd pkg api_key source) [] s

/-- Body of `publish`: resolves the API key (explicit argument, else the
`NUGET_API_KEY` environment variable; `if not api_key` fails on `None` and on
the empty string), then pushes every `artifacts` file matching the glob
`*.nupkg`, skipping any ending in `.snupkg`. -/
def publish_body (source : String) (api_key : Option String) (s : St) : Res :=
  let key := match api_key with
    | some k => some k
    | none => getenv "NUGET_API_KEY" s.osEnv
  if key = none ∨ key = some "" then
    .error (.missingCredential "Missing NuGet API key. Pass --api-key or set NUGET_API_KEY.", s)
  else
    seqSteps ((s.fs.artifactFiles.filter (fun f => endsWith ".nupkg" f)).map
      (fun pkg => pushOne (key.getD "") source pkg)) s

/-- `../testrift-server/nuget/TestRift.Server/bin/Release`, the local server
package feed checked by `restore_local`. -/
def serverNugetDir : Path := ["..", "testrift-server", "nuget", "TestRift.Server", "bin", "Release"]

/-- The four project files `restore_local` restores, as (parent-name, path). -/
def restoreProjects : List (String × String) :=
  [("Example", "Example/ExampleTests.csproj"),
   ("TestRift.NUnit.Tests", "tests/TestRift.NUnit.Tests/TestRift.NUnit.Tests.csproj"),
   ("TestRift.NUnit.Tests.MaxVersions", "tests/TestRift.NUnit.Tests.MaxVersions/TestRift.NUnit.Tests.MaxVersions.csproj"),
   ("TestRift.NUnit.Integration.Tests", "tests/TestRift.NUnit.Integration.Tests/TestRift.NUnit.Integration.Tests.csproj")]

/-- Body of `restore_local`: if the local server package directory is missing,
print two messages and return normally; otherwise restore each project. -/
def restore_local_body (s : St) : Res :=
  if serverNugetDir ∈ s.fs.dirs then
    seqSteps (restoreProjects.map (fun proj s' =>
        runCmd ("dotnet restore \"" ++ proj.2 ++ "\" --force")
          [] (printE ("\nRestoring " ++ proj.1 ++ "...") s')))
      (printE "Using local TestRift.Server feed: ../testrift-server/nuget/TestRift.Server/bin/Release" s)
  else
    .ok (printE "Run 'inv build-nuget' in testrift-server directory first."
          (printE "ERROR: Local TestRift.Server package not found at: ../testrift-server/nuget/TestRift.Server/bin/Release" s))

/-- The command string `run_example` builds: the `--filter` clause is appended
only when `filter` is truthy (`if filter:` — neither `None` nor `""`). -/
def run_example_cmd (filter : Option String) : String :=
  let cmd := "dotnet test --logger console;verbosity=normal"
  match filter with
  | none => cmd
  | some f => if f = "" then cmd else cmd ++ " --filter " ++ f

/-- The two-variable environment overlay `run_example` passes to its one
command. -/
def run_example_env (server_url : String) : List (String × String) :=
  [("TEST_LOG_SERVER_URL", server_url), ("TEST_DUT_NAME", "INVOKE-TEST")]

/-- Body of `run_example`: one `dotnet test` inside the `Example` scope with
the two-variable overlay. -/
def run_example_body (filter : Option String) (server_url : String) (s : St) : Res :=
  withCd exampleDir
    (runCmd (run_example_cmd filter) (run_example_env server_url))
    (printE ("Running example tests (server: " ++ server_url ++ ")...") s)

/-! ### Prerequisite resolution (Task Resolver)

The `@task(pre=[...])` chains are declared in `tasks.py`; the resolver that
walks them is the Invoke library, outside this repository, so it is modelled
from the spec. -/

/-- A named task with its declared prerequisite list, as `@task(pre=[...])`
declares it. The body is abstracted by name at this level. -/
inductive Task where
  | mk (name : String) (pre : List Task)

/-- The task's name. -/
def Task.name : Task → String
  | .mk n _ => n

/-- The task's declared prerequisite list. -/
def Task.pre : Task → List Task
  | .mk _ p => p

mutual

/-- Modelled from the spec: the Task Resolver (Invoke's executor, not part of
this repository) builds the prerequisite closure by a depth-first walk in
declared order, skipping any task already executed within this invocation.
`execVisit visited t` returns the names newly executed by visiting `t` when
the tasks in `visited` have already run, in execution order: prerequisites
first, then `t`'s own body unless it already ran. -/
def execVisit (visited : List String) : Task → List String
  | .mk n pre =>
    let w := execVisitList visited pre
    if n ∈ visited ++ w then w else w ++ [n]

/-- Depth-first visit of a declared prerequisite list, left to right,
accumulating the already-executed set. -/
def execVisitList (visited : List String) : List Task → List String
  | [] => []
  | t :: ts =>
    let w := execVisit visited t
    w ++ execVisitList (visited ++ w) ts

end

/-- The bodies a top-level invocation of `t` executes, in order. -/
def execOrder (t : Task) : List String := execVisit [] t

/-- Runs the bodies named in a closure in order, with `outcome` giving each
body's result; fail-fast: the first failure stops the walk and is surfaced
unchanged. Returns the names whose bodies were started, and the failure if
any. -/
def runNames (outcome : String → Option Err) : List String → List String × Option Err
  | [] => ([], none)
  | n :: ns =>
    match outcome n with
    | none =>
      let r := runNames outcome ns
      (n :: r.1, r.2)
    | some e => ([n], some e)

/-- A top-level invocation: resolve the closure, then run the bodies. -/
def invokeTask (outcome : String → Option Err) (t : Task) : List String × Option Err :=
  runNames outcome (execOrder t)

/-- `clean` (no prerequisites). -/
def clean_task : Task := .mk "clean" []

/-- `pack`, declared `@task(pre=[clean])`. -/
def pack_task : Task := .mk "pack" [clean_task]

/-- `publish`, declared `@task(pre=[pack])`. -/
def publish_task : Task := .mk "publish" [pack_task]

/-- A full invocation of `pack` at the body level: `clean`'s body, then
`pack`'s body, the order `execOrder pack_task` prescribes. -/
def invokePack (configuration : String) (s : St) : Res :=
  andThen (clean_body s) (pack_body configuration)

/-! ### Namespace Registry (Collection merge)

`ns = Collection(); ns.add_task(...); ns.add_collection(Collection.from_module
(test_tasks_module, name='test'))` — the `Collection` class is Invoke library
code and `tests/tasks.py` is outside `src/`, so the merge is modelled from the
spec: merging a sub-collection under a qualifier makes every contained task
addressable under its qualified dotted name, with both sets' bodies carried
unchanged. -/

/-- Modelled from the spec: a namespace registry as an association list from
qualified task name to task body (bodies of an arbitrary type `β`). -/
abbrev Registry (β : Type) : Type := List (String × β)

/-- Modelled from the spec: `lookup` is exact-match only. -/
def lookupTask {β : Type} (ns : Registry β) (n : String) : Option β :=
  (ns.find? (fun kv => kv.1 = n)).map (fun kv => kv.2)

/-- Modelled from the spec: `add_collection` merges a sub-collection under a
qualifier, dotting every contained task's name with the qualifier and leaving
every body unmodified. -/
def addCollection {β : Type} (ns : Registry β) (qual : String) (sub : Registry β) : Registry β :=
  ns ++ sub.map (fun kv => (qual ++ "." ++ kv.1, kv.2))

/-! ### Fixtures for concrete instantiations -/

/-- Whether a command string carries a `--filter` clause. -/
def hasFilterClause (cmd : String) : Bool :=
  decide (" --filter ".data <:+: cmd.data)

/-- The default NuGet feed URL of `publish`. -/
def nugetSource : String := "https://api.nuget.org/v3/index.json"

/-- A shared prerequisite reachable through two paths. -/
def common_task : Task := .mk "c" []

/-- First prerequisite of the diamond, itself requiring `c`. -/
def p1_task : Task := .mk "p1" [common_task]

/-- Second prerequisite of the diamond, also requiring `c`. -/
def p2_task : Task := .mk "p2" [common_task]

/-- A diamond: two declared prerequisites sharing a common prerequisite. -/
def diamond_task : Task := .mk "t" [p1_task, p2_task]

/-- Body outcomes where every body succeeds. -/
def allOk : String → Option Err := fun _ => none

/-- Body outcomes where `pack`'s body fails and every other body succeeds. -/
def failPackOutcome : String → Option Err :=
  fun n => if n = "pack" then some (.commandFailed "dotnet pack -c Release -o ..\\..\\artifacts") else none

/-- An initial state: empty repository, ambient directory, empty environment,
all external commands succeeding. -/
def st0 : St :=
  { fs := { dirs := [], undeletable := [], artifactFiles := [] },
    cwd := [], osEnv := [], trace := [], outcomes := [] }

/-- The state a successful `pack` invocation leaves behind when started from
`st0`. -/
def st0AfterPack : St :=
  { fs := { dirs := [["artifacts"]], undeletable := [], artifactFiles := [] },
    cwd := [], osEnv := [],
    trace := [Event.mkdir ["artifacts"],
              Event.run [["src", "TestRift.NUnit"]] "dotnet pack -c Release -o ..\\..\\artifacts" []],
    outcomes := [] }

/-- A state whose `artifacts` directory holds a package and its symbol
package, as in the spec's example. -/
def stFoo : St :=
  { fs := { dirs := [["artifacts"]], undeletable := [],
            artifactFiles := ["Foo.1.0.0.nupkg", "Foo.1.0.0.snupkg"] },
    cwd := [], osEnv := [], trace := [], outcomes := [] }

/-- A sub-collection holding one task named `unit` (bodies abstracted as
strings). -/
def subUnit : Registry String := [("unit", "unit-body")]

/-- A top-level registry holding one task named `build`. -/
def nsBuild : Registry String := [("build", "build-body")]

/-! ## Lemmas about the prerequisite walk -/

/-- Visiting a task leaves its name executed (or it already was). -/
theorem name_mem_execVisit (visited : List String) (t : Task) :
    t.name ∈ visited ++ execVisit visited t := by
  match t with
  | .mk n pre =>
    by_cases h : n ∈ visited ++ execVisitList visited pre
    · simp [execVisit, Task.name, h]
    · simp [execVisit, Task.name, h]

mutual

/-- The depth-first walk never executes a body twice: the names executed by a
visit extend the already-executed set without duplicates. -/
theorem execVisit_nodup (visited : List String) (t : Task) (h : visited.Nodup) :
    (visited ++ execVisit visited t).Nodup := by
  match t with
  | .mk n pre =>
    have hb := execVisitList_nodup visited pre h
    by_cases hn : n ∈ visited ++ execVisitList visited pre
    · simpa [execVisit, hn] using hb
    · have hcons : ((visited ++ execVisitList visited pre) ++ [n]).Nodup := by
        refine List.Nodup.append hb (List.nodup_singleton n) ?_
        intro a ha hmem
        rw [List.mem_singleton] at hmem
        exact hn (hmem ▸ ha)
      rw [List.append_assoc] at hcons
      simpa [execVisit, hn] using hcons

/-- As `execVisit_nodup`, for a declared prerequisite list. -/
theorem execVisitList_nodup (visited : List String) (ts : List Task) (h : visited.Nodup) :
    (visited ++ execVisitList visited ts).Nodup := by
  match ts with
  | [] => simpa [execVisitList] using h
  | t :: ts' =>
    have h1 := execVisit_nodup visited t h
    have h2 := execVisitList_nodup (visited ++ execVisit visited t) ts' h1
    simpa [execVisitList, List.append_assoc] using h2

end

/-- Every declared prerequisite's body has run (now or earlier) once its list
has been walked. -/
theorem pre_mem_execVisitList (visited : List String) (ts : List Task) :
    ∀ p ∈ ts, p.name ∈ visited ++ execVisitList visited ts := by
  induction ts generalizing visited with
  | nil => intro p hp; cases hp
  | cons t ts' ih =>
    intro p hp
    rcases List.mem_cons.mp hp with hp | hp
    · subst hp
      have := name_mem_execVisit visited p
      simp only [execVisitList, ← List.append_assoc]
      exact List.mem_append_left _ this
    · have := ih (visited ++ execVisit visited t) p hp
      simpa [execVisitList, List.append_assoc] using this

/-- When every body succeeds, the whole closure runs, in order. -/
theorem runNames_all_ok (outcome : String → Option Err) (l : List String)
    (h : ∀ n ∈ l, outcome n = none) : runNames outcome l = (l, none) := by
  induction l with
  | nil => rfl
  | cons n ns ih =>
    have hn : outcome n = none := h n (List.mem_cons_self n ns)
    simp [runNames, hn, ih (fun m hm => h m (List.mem_cons_of_mem n hm))]

/-- Fail-fast: the first failing body stops the walk and its failure is
surfaced unchanged. -/
theorem runNames_fail (outcome : String → Option Err) (l1 l2 : List String)
    (p : String) (e : Err)
    (hok : ∀ n ∈ l1, outcome n = none) (hfail : outcome p = some e) :
    runNames outcome (l1 ++ p :: l2) = (l1 ++ [p], some e) := by
  induction l1 with
  | nil => simp [runNames, hfail]
  | cons n ns ih =>
    have hn : outcome n = none := hok n (List.mem_cons_self n ns)
    simp [runNames, hn, ih (fun m hm => hok m (List.mem_cons_of_mem n hm))]

/-! ## The claims -/

/-- **C1**: for every task `t` whose declared prerequisite list is
`[p1, p2, ...]`, a top-level invocation of `t` executes each prerequisite body
in declared depth-first order before `t`'s body, and each body in the closure
executes exactly once per invocation, even when a prerequisite is reachable
via multiple paths: when every body succeeds, the bodies run are exactly the
depth-first walk of the declared prerequisite list followed by `t`'s own body,
without duplicates, and every declared prerequisite's body is among the bodies
run before `t`'s. -/
theorem C1_prerequisite_closure_order (t : Task) (outcome : String → Option Err)
    (hacyclic : t.name ∉ execVisitList [] t.pre)
    (hok : ∀ n, outcome n = none) :
    invokeTask outcome t = (execVisitList [] t.pre ++ [t.name], none) ∧
    (execVisitList [] t.pre ++ [t.name]).Nodup ∧
    (∀ p ∈ t.pre, p.name ∈ execVisitList [] t.pre) := by
  match t with
  | .mk n pre =>
    simp only [Task.name, Task.pre] at hacyclic ⊢
    have horder : execOrder (.mk n pre) = execVisitList [] pre ++ [n] := by
      simp [execOrder, execVisit, hacyclic]
    refine ⟨?_, ?_, ?_⟩
    · rw [invokeTask, horder]
      exact runNames_all_ok outcome _ (fun m _ => hok m)
    · have := execVisit_nodup [] (.mk n pre) List.nodup_nil
      rw [List.nil_append] at this
      rw [execOrder] at horder
      exact horder ▸ this
    · intro p hp
      have := pre_mem_execVisitList [] pre p hp
      simpa using this

/-- Witness for C1: the diamond (two declared prerequisites sharing a common
prerequisite, reachable via two paths) with all bodies succeeding runs
`c`, `p1`, `p2`, then `t`, each exactly once. -/
theorem C1_witness :
    (Task.name diamond_task ∉ execVisitList [] (Task.pre diamond_task)) ∧
    (invokeTask allOk diamond_task =
        (execVisitList [] (Task.pre diamond_task) ++ [Task.name diamond_task], none) ∧
      (execVisitList [] (Task.pre diamond_task) ++ [Task.name diamond_task]).Nodup ∧
      (∀ p ∈ Task.pre diamond_task, Task.name p ∈ execVisitList [] (Task.pre diamond_task))) ∧
    execVisitList [] (Task.pre diamond_task) ++ [Task.name diamond_task] = ["c", "p1", "p2", "t"] :=
  ⟨by decide,
   C1_prerequisite_closure_order diamond_task allOk (by decide) (fun _ => rfl),
   by decide⟩

/-- **C2**: for every task `t` with a prerequisite whose body fails during an
invocation of `t`, the bodies started are exactly those before the failing one
plus the failing one itself, the surfaced failure is the prerequisite's
original failure unchanged, `t`'s own body is among the never-started
remainder, and nothing after the failing prerequisite in the closure is
started. -/
theorem C2_prerequisite_failure_stops (t : Task) (outcome : String → Option Err)
    (p : String) (e : Err) (l1 l2 : List String)
    (hacyclic : t.name ∉ execVisitList [] t.pre)
    (hsplit : execOrder t = l1 ++ p :: l2)
    (hne : p ≠ t.name)
    (hok : ∀ n ∈ l1, outcome n = none)
    (hfail : outcome p = some e) :
    invokeTask outcome t = (l1 ++ [p], some e) ∧
    t.name ∈ l2 ∧
    (∀ n ∈ l2, n ∉ l1 ++ [p]) := by
  have horder : execOrder t = execVisitList [] t.pre ++ [t.name] := by
    match t with
    | .mk n pre =>
      simp only [Task.name, Task.pre] at hacyclic ⊢
      simp [execOrder, execVisit, hacyclic]
  have hnodup : (execOrder t).Nodup := by
    have := execVisit_nodup [] t List.nodup_nil
    rwa [List.nil_append] at this
  refine ⟨?_, ?_, ?_⟩
  · rw [invokeTask, hsplit]
    exact runNames_fail outcome l1 l2 p e hok hfail
  · have hlast : (execOrder t).getLast? = some t.name := by
      rw [horder]
      simp
    rw [hsplit] at hlast
    match l2, hlast with
    | [], hlast =>
      rw [List.getLast?_append_cons] at hlast
      simp at hlast
      exact absurd hlast hne
    | m :: l2', hlast =>
      rw [List.getLast?_append_cons, List.getLast?_cons_cons] at hlast
      exact List.mem_of_getLast?_eq_some hlast
  · have hnd : (l1 ++ p :: l2).Nodup := hsplit ▸ hnodup
    rw [List.nodup_append] at hnd
    intro m hm
    rw [List.mem_append, List.mem_singleton]
    rintro (hml1 | hmp)
    · exact hnd.2.2 hml1 (List.mem_cons_of_mem p hm)
    · subst hmp
      exact (List.nodup_cons.mp hnd.2.1).1 hm

/-- Witness for C2: invoking `publish` (prerequisite chain
`clean`, `pack`, `publish`) with `pack`'s body failing runs `clean` and
`pack` only, never starts `publish`'s body, and surfaces `pack`'s failure. -/
theorem C2_witness :
    (Task.name publish_task ∉ execVisitList [] (Task.pre publish_task)) ∧
    execOrder publish_task = ["clean"] ++ "pack" :: ["publish"] ∧
    (∀ n ∈ ["clean"], failPackOutcome n = none) ∧
    failPackOutcome "pack" =
      some (.commandFailed "dotnet pack -c Release -o ..\\..\\artifacts") ∧
    (invokeTask failPackOutcome publish_task =
        (["clean"] ++ ["pack"],
         some (.commandFailed "dotnet pack -c Release -o ..\\..\\artifacts")) ∧
      Task.name publish_task ∈ ["publish"] ∧
      (∀ n ∈ ["publish"], n ∉ ["clean"] ++ ["pack"])) :=
  ⟨by decide, by decide, by decide, by decide,
   C2_prerequisite_failure_stops publish_task failPackOutcome "pack"
     (.commandFailed "dotnet pack -c Release -o ..\\..\\artifacts")
     ["clean"] ["publish"]
     (by decide) (by decide) (by decide) (by decide) (by decide)⟩

/-- A name cannot end both in `.nupkg` and in `.snupkg`: the two suffixes
disagree, so the `*.nupkg` glob and the `.snupkg` skip guard select disjoint
files. -/
theorem not_nupkg_and_snupkg (f : String) :
    ¬(endsWith ".nupkg" f = true ∧ endsWith ".snupkg" f = true) := by
  rintro ⟨h1, h2⟩
  simp only [endsWith, List.isSuffixOf_iff_suffix] at h1 h2
  rcases List.suffix_or_suffix_of_suffix h1 h2 with h3 | h3
  · exact absurd h3 (by decide)
  · exact absurd h3 (by decide)

/-- A `*.nupkg` file never triggers the `.snupkg` skip guard. -/
theorem nupkg_not_snupkg {f : String} (h : endsWith ".nupkg" f = true) :
    endsWith ".snupkg" f = false := by
  cases hs : endsWith ".snupkg" f
  · rfl
  · exact absurd ⟨h, hs⟩ (not_nupkg_and_snupkg f)

/-- The `publish` push loop over `*.nupkg` files issues exactly one push
command per file, in order, when the toolchain succeeds. -/
theorem pushLoop_trace (key source : String) (files : List String) (s : St)
    (hnup : ∀ f ∈ files, endsWith ".nupkg" f = true) (hout : s.outcomes = []) :
    seqSteps (files.map (fun pkg => pushOne key source pkg)) s =
      .ok { s with
        trace := s.trace ++
          files.map (fun f => Event.run s.cwd (pushCmd f key source) []) } := by
  induction files generalizing s with
  | nil => simp [seqSteps]
  | cons f fs ih =>
    have hf := hnup f (List.mem_cons_self f fs)
    have hsn := nupkg_not_snupkg hf
    have hrun : runCmd (pushCmd f key source) [] s =
        .ok { s with trace := s.trace ++ [Event.run s.cwd (pushCmd f key source) []],
                     outcomes := [] } := by
      simp [runCmd, hout]
    have ihs := ih
      { s with trace := s.trace ++ [Event.run s.cwd (pushCmd f key source) []],
               outcomes := [] }
      (fun g hg => hnup g (List.mem_cons_of_mem f hg)) rfl
    simp only [List.map_cons, seqSteps, pushOne, hsn, Bool.false_eq_true, if_false, hrun,
      andThen] at ihs ⊢
    simpa [List.append_assoc, hout] using ihs

/-! ## Claims C3, C4, C5 -/

/-- **C3**: every invocation of `pack` executes `clean`'s body before `pack`'s
own body (the resolved closure is `clean` then `pack`), and after any
successful completion of `pack` the `artifacts` directory exists — `pack`
creates it before issuing its pack command, as the trace order shows. -/
theorem C3_pack_cleans_first_creates_artifacts (configuration : String) (s s' : St)
    (h : invokePack configuration s = .ok s') :
    execOrder pack_task = ["clean", "pack"] ∧
    artifactsDir ∈ s'.fs.dirs ∧
    ∃ s₁, clean_body s = .ok s₁ ∧
      s'.trace = s₁.trace ++ [Event.mkdir artifactsDir,
        Event.run (s₁.cwd ++ [projDir])
          ("dotnet pack -c " ++ configuration ++ " -o ..\\..\\artifacts") []] := by
  refine ⟨by decide, ?_⟩
  rw [invokePack] at h
  cases hc : clean_body s with
  | error e => rw [hc] at h; exact absurd h (by simp [andThen])
  | ok s₁ =>
    rw [hc] at h
    simp only [andThen] at h
    by_cases hb : (mkdirExistOk artifactsDir s₁).outcomes.headD true
    · simp only [pack_body, withCd, runCmd, hb, if_true] at h
      rcases h with h
      injection h with h
      subst h
      constructor
      · simp only [mkdirExistOk]
        by_cases hd : artifactsDir ∈ s₁.fs.dirs <;> simp [hd]
      · exact ⟨s₁, rfl, by simp [mkdirExistOk]⟩
    · simp only [pack_body, withCd, runCmd, hb, if_false] at h
      exact absurd h (by simp)

/-- Witness for C3: from an empty repository with a succeeding toolchain,
`pack` completes and the `artifacts` directory exists afterwards. -/
theorem C3_witness :
    invokePack "Release" st0 = .ok st0AfterPack ∧ artifactsDir ∈ st0AfterPack.fs.dirs :=
  ⟨rfl,
   (C3_pack_cleans_first_creates_artifacts "Release" st0 st0AfterPack rfl).2.1⟩

/-- **C4**: `publish` invoked with no explicit `api_key` and no
`NUGET_API_KEY` in the environment fails with the missing-credential error
before any effect: the surfaced state is the initial one, so zero push
commands were issued. -/
theorem C4_publish_missing_credential (source : String) (s : St)
    (h : getenv "NUGET_API_KEY" s.osEnv = none) :
    publish_body source none s =
      .error (.missingCredential
        "Missing NuGet API key. Pass --api-key or set NUGET_API_KEY.", s) ∧
    (afterSt (publish_body source none s)).trace = s.trace := by
  have h1 : publish_body source none s =
      .error (.missingCredential
        "Missing NuGet API key. Pass --api-key or set NUGET_API_KEY.", s) := by
    simp [publish_body, h]
  exact ⟨h1, by rw [h1]; rfl⟩

/-- Witness for C4: with an empty environment and packages present,
`publish` fails with the missing-credential error and an unchanged trace. -/
theorem C4_witness :
    getenv "NUGET_API_KEY" stFoo.osEnv = none ∧
    (publish_body nugetSource none stFoo =
      .error (.missingCredential
        "Missing NuGet API key. Pass --api-key or set NUGET_API_KEY.", stFoo) ∧
    (afterSt (publish_body nugetSource none stFoo)).trace = stFoo.trace) :=
  ⟨by decide, C4_publish_missing_credential nugetSource stFoo (by decide)⟩

/-- **C5**: for every contents of the `artifacts` directory, `publish` issues
exactly one push command per file matching the package extension `.nupkg` —
the trace grows by exactly the ordered pushes of those files — and no file
ending in `.snupkg` is among them (such a name never matches `*.nupkg`). -/
theorem C5_publish_pushes_nupkg_only (source key : String) (s : St)
    (hk : key ≠ "") (hout : s.outcomes = []) :
    publish_body source (some key) s =
      .ok { s with
        trace := s.trace ++
          (s.fs.artifactFiles.filter (fun f => endsWith ".nupkg" f)).map
            (fun f => Event.run s.cwd (pushCmd f key source) []) } ∧
    (∀ f, endsWith ".snupkg" f = true →
      f ∉ s.fs.artifactFiles.filter (fun f => endsWith ".nupkg" f)) := by
  constructor
  · have hcond : ¬((some key : Option String) = none ∨ (some key : Option String) = some "") := by
      simp [hk]
    simp only [publish_body, if_neg hcond, Option.getD_some]
    exact pushLoop_trace key source _ s (fun f hf => (List.mem_filter.mp hf).2) hout
  · intro f hsf hmem
    exact absurd ⟨(List.mem_filter.mp hmem).2, hsf⟩ (not_nupkg_and_snupkg f)

/-- Witness for C5: with `Foo.1.0.0.nupkg` and `Foo.1.0.0.snupkg` in
`artifacts`, exactly one push command is issued, for the `.nupkg` file. -/
theorem C5_witness :
    ("k" ≠ "" ∧ stFoo.outcomes = []) ∧
    (publish_body nugetSource (some "k") stFoo =
      .ok { stFoo with
        trace := stFoo.trace ++
          (stFoo.fs.artifactFiles.filter (fun f => endsWith ".nupkg" f)).map
            (fun f => Event.run stFoo.cwd (pushCmd f "k" nugetSource) []) } ∧
    (∀ f, endsWith ".snupkg" f = true →
      f ∉ stFoo.fs.artifactFiles.filter (fun f => endsWith ".nupkg" f))) ∧
    stFoo.fs.artifactFiles.filter (fun f => endsWith ".nupkg" f) = ["Foo.1.0.0.nupkg"] :=
  ⟨⟨by decide, rfl⟩,
   C5_publish_pushes_nupkg_only nugetSource "k" stFoo (by decide) rfl,
   by decide⟩

/-! ## Claims C6-C10 -/

/-- String concatenation cancels on the left. -/
theorem string_append_cancel_left {q m n : String} (h : q ++ m = q ++ n) : m = n := by
  apply String.ext
  have hd := congrArg String.data h
  simp only [String.data_append] at hd
  exact List.append_cancel_left hd

/-- Looking a qualified name up in the qualified copy of a sub-collection
finds exactly the original task. -/
theorem lookupTask_qualified {β : Type} (q : String) (sub : Registry β) (n : String) :
    lookupTask (sub.map (fun kv => (q ++ kv.1, kv.2))) (q ++ n) = lookupTask sub n := by
  induction sub with
  | nil => rfl
  | cons kv sub' ih =>
    by_cases hm : kv.1 = n
    · simp [lookupTask, List.find?_cons_of_pos, hm]
    · have hq : ¬(q ++ kv.1 = q ++ n) := fun hc => hm (string_append_cancel_left hc)
      simp only [lookupTask, List.map_cons] at ih ⊢
      rw [List.find?_cons_of_neg _ (by simpa using hq),
        List.find?_cons_of_neg _ (by simpa using hm)]
      exact ih

/-- **C6**: merging the externally loaded sub-collection into the top-level
namespace under the qualifier `test` makes every task of the sub-collection
addressable under its qualified dotted name with its body unchanged, and every
task already in the top level keeps its body: neither set's bodies are
modified by the merge. -/
theorem C6_merge_under_test_qualifier {β : Type} (ns sub : Registry β) (n : String) (b : β)
    (hsub : lookupTask sub n = some b)
    (hfresh : lookupTask ns ("test" ++ "." ++ n) = none) :
    lookupTask (addCollection ns "test" sub) ("test" ++ "." ++ n) = some b ∧
    (∀ m q, lookupTask ns m = some q →
      lookupTask (addCollection ns "test" sub) m = some q) := by
  constructor
  · have hns : ns.find? (fun kv => kv.1 = "test" ++ "." ++ n) = none := by
      rw [lookupTask] at hfresh
      exact Option.map_eq_none'.mp hfresh
    rw [addCollection, lookupTask, List.find?_append, hns, Option.none_or]
    have := lookupTask_qualified ("test" ++ ".") sub n
    rw [lookupTask] at this
    rw [this]
    exact hsub
  · intro m q hq
    rw [lookupTask] at hq
    cases hf : ns.find? (fun kv => kv.1 = m) with
    | none => rw [hf] at hq; simp at hq
    | some kv =>
      rw [hf] at hq
      rw [addCollection, lookupTask, List.find?_append, hf, Option.or_some]
      exact hq

/-- Witness for C6: a sub-collection task named `unit` becomes addressable as
`test.unit` with its body unchanged, and the top-level `build` keeps its
body. -/
theorem C6_witness :
    lookupTask subUnit "unit" = some "unit-body" ∧
    lookupTask nsBuild ("test" ++ "." ++ "unit") = none ∧
    (lookupTask (addCollection nsBuild "test" subUnit) ("test" ++ "." ++ "unit") =
        some "unit-body" ∧
      (∀ m q, lookupTask nsBuild m = some q →
        lookupTask (addCollection nsBuild "test" subUnit) m = some q)) ∧
    "test" ++ "." ++ "unit" = "test.unit" :=
  ⟨by decide, by decide,
   C6_merge_under_test_qualifier nsBuild subUnit "unit" "unit-body" (by decide) (by decide),
   by decide⟩

/-- Whatever the exit status, a command leaves behind the same state: the
event appended, the next outcome consumed, everything else untouched. -/
theorem afterSt_runCmd (cmd : String) (env : List (String × String)) (s : St) :
    afterSt (runCmd cmd env s) =
      { s with trace := s.trace ++ [Event.run s.cwd cmd env],
               outcomes := s.outcomes.tail } := by
  unfold runCmd
  by_cases h : s.outcomes.headD true = true
  · rw [if_pos h]; rfl
  · rw [if_neg h]; rfl

/-- On every exit path of the scope, the directory stack is restored. -/
theorem afterSt_withCd (d : Path) (body : St → Res) (s : St) :
    afterSt (withCd d body s) =
      { afterSt (body { s with cwd := s.cwd ++ [d] }) with cwd := s.cwd } := by
  cases h : body { s with cwd := s.cwd ++ [d] } with
  | ok s₂ => simp [withCd, afterSt, h]
  | error e =>
    obtain ⟨e1, s₂⟩ := e
    simp [withCd, afterSt, h]

/-- **C7**: a scoped command execution is a stack discipline: after
`with c.cd(A): run(...)`, whether the scoped command succeeded or failed
(every outcome oracle is covered), the working-directory stack is the ambient
one again, the scoped command observed the pushed scope, and a subsequent
unscoped command observes the ambient working directory, not `A`. -/
theorem C7_cd_scope_restored (s : St) (d : Path) (cmd c2 : String)
    (env env2 : List (String × String)) :
    (afterSt (withCd d (runCmd cmd env) s)).cwd = s.cwd ∧
    (afterSt (withCd d (runCmd cmd env) s)).trace =
      s.trace ++ [Event.run (s.cwd ++ [d]) cmd env] ∧
    (afterSt (runCmd c2 env2 (afterSt (withCd d (runCmd cmd env) s)))).trace =
      (afterSt (withCd d (runCmd cmd env) s)).trace ++ [Event.run s.cwd c2 env2] := by
  have hA : afterSt (withCd d (runCmd cmd env) s) =
      { s with trace := s.trace ++ [Event.run (s.cwd ++ [d]) cmd env],
               outcomes := s.outcomes.tail } := by
    rw [afterSt_withCd, afterSt_runCmd]
  refine ⟨by rw [hA], by rw [hA], ?_⟩
  rw [afterSt_runCmd, hA]

/-- **C8 counterexample**: a supplied, empty filter argument produces a
command with no `--filter` clause, refuting "contains a `--filter` clause if
and only if a filter argument was supplied" as stated. -/
theorem C8_counterexample :
    (some "" : Option String).isSome = true ∧
    hasFilterClause (run_example_cmd (some "")) = false := by
  decide

/-- **C8 (amended)**: every invocation of `run_example` issues a single test
command whose environment overlay is exactly the two variables
`TEST_LOG_SERVER_URL` (bound to the server URL) and `TEST_DUT_NAME`, the
overlay is local to that one command (the ambient environment is unchanged),
and the command string contains a `--filter` clause if and only if a
*non-empty* filter argument was supplied. -/
theorem C8_run_example_overlay_and_filter (filter : Option String)
    (server_url : String) (s : St) :
    (afterSt (run_example_body filter server_url s)).trace =
      s.trace ++ [Event.print ("Running example tests (server: " ++ server_url ++ ")..."),
        Event.run (s.cwd ++ [exampleDir]) (run_example_cmd filter)
          (run_example_env server_url)] ∧
    run_example_env server_url =
      [("TEST_LOG_SERVER_URL", server_url), ("TEST_DUT_NAME", "INVOKE-TEST")] ∧
    (afterSt (run_example_body filter server_url s)).osEnv = s.osEnv ∧
    (afterSt (run_example_body filter server_url s)).cwd = s.cwd ∧
    (hasFilterClause (run_example_cmd filter) = true ↔
      ¬(filter = none ∨ filter = some "")) := by
  have hA : afterSt (run_example_body filter server_url s) =
      { s with
        trace := s.trace ++
          [Event.print ("Running example tests (server: " ++ server_url ++ ")..."),
           Event.run (s.cwd ++ [exampleDir]) (run_example_cmd filter)
             (run_example_env server_url)],
        outcomes := s.outcomes.tail } := by
    rw [run_example_body, afterSt_withCd, afterSt_runCmd]
    simp [printE, List.append_assoc]
  refine ⟨by rw [hA], rfl, by rw [hA], by rw [hA], ?_⟩
  rcases filter with _ | f
  · simp only [run_example_cmd]
    constructor
    · intro hc; exact absurd hc (by decide)
    · intro hc; simp at hc
  · by_cases hf : f = ""
    · subst hf
      simp only [run_example_cmd, if_pos rfl]
      constructor
      · intro hc; exact absurd hc (by decide)
      · intro hc; simp at hc
    · simp only [run_example_cmd, if_neg hf]
      constructor
      · intro _
        simp [hf]
      · intro _
        rw [hasFilterClause, decide_eq_true_eq]
        have hdata : ("dotnet test --logger console;verbosity=normal" ++ " --filter " ++ f).data =
            "dotnet test --logger console;verbosity=normal".data ++
              (" --filter ".data ++ f.data) := by
          simp [String.data_append, List.append_assoc]
        rw [hdata]
        exact ⟨"dotnet test --logger console;verbosity=normal".data, f.data, by
          simp [List.append_assoc]⟩

/-- **C9**: when the local TestRift.Server package directory does not exist,
`restore_local` returns normally after printing the two error messages,
leaves the filesystem and outcome oracle untouched, and issues zero restore
commands: the trace grows by the two prints only. -/
theorem C9_restore_local_missing_dir_no_error (s : St)
    (h : serverNugetDir ∉ s.fs.dirs) :
    restore_local_body s = .ok { s with
      trace := s.trace ++
        [Event.print "ERROR: Local TestRift.Server package not found at: ../testrift-server/nuget/TestRift.Server/bin/Release",
         Event.print "Run 'inv build-nuget' in testrift-server directory first."] } ∧
    (afterSt (restore_local_body s)).fs = s.fs ∧
    (afterSt (restore_local_body s)).outcomes = s.outcomes := by
  have h1 : restore_local_body s = .ok { s with
      trace := s.trace ++
        [Event.print "ERROR: Local TestRift.Server package not found at: ../testrift-server/nuget/TestRift.Server/bin/Release",
         Event.print "Run 'inv build-nuget' in testrift-server directory first."] } := by
    simp [restore_local_body, h, printE]
  refine ⟨h1, ?_, ?_⟩ <;> rw [h1] <;> rfl

/-- Witness for C9: in the empty repository the server package directory is
missing and `restore_local` completes normally with the two prints. -/
theorem C9_witness :
    serverNugetDir ∉ st0.fs.dirs ∧
    (restore_local_body st0 = .ok { st0 with
      trace := st0.trace ++
        [Event.print "ERROR: Local TestRift.Server package not found at: ../testrift-server/nuget/TestRift.Server/bin/Release",
         Event.print "Run 'inv build-nuget' in testrift-server directory first."] } ∧
    (afterSt (restore_local_body st0)).fs = st0.fs ∧
    (afterSt (restore_local_body st0)).outcomes = st0.outcomes) :=
  ⟨by decide, C9_restore_local_missing_dir_no_error st0 (by decide)⟩

/-- Every `ignore_errors=True` deletion completes normally, on every
filesystem state. -/
theorem rmtreeE_ignore_ok (p : Path) (s : St) : ∃ s', rmtreeE p true s = .ok s' := by
  by_cases h : p ∈ s.fs.undeletable
  · exact ⟨{ s with trace := s.trace ++ [Event.rmtree p true] }, by
      simp [rmtreeE, h]⟩
  · exact ⟨{ s with
        trace := s.trace ++ [Event.rmtree p true],
        fs := { s.fs with
          dirs := s.fs.dirs.filter (fun d => ¬ p.isPrefixOf d),
          artifactFiles := if p = ["artifacts"] then [] else s.fs.artifactFiles } }, by
      simp only [rmtreeE]; rw [if_neg h]⟩

/-- A sequence of steps that each complete normally completes normally. -/
theorem seqSteps_ok (steps : List (St → Res))
    (hall : ∀ step ∈ steps, ∀ s, ∃ s', step s = .ok s') :
    ∀ s, ∃ s', seqSteps steps s = .ok s' := by
  induction steps with
  | nil => intro s; exact ⟨s, rfl⟩
  | cons stp rest ih =>
    intro s
    obtain ⟨s₁, h1⟩ := hall stp (List.mem_cons_self stp rest) s
    obtain ⟨s₂, h2⟩ := ih (fun t ht => hall t (List.mem_cons_of_mem stp ht)) s₁
    exact ⟨s₂, by simp [seqSteps, andThen, h1, h2]⟩

/-- **C10**: `clean` never signals a failure: every recursive deletion it
performs ignores errors and the `artifacts` removal is guarded by an
existence check, so for every filesystem state — absent `bin`/`obj`/
`artifacts` directories and undeletable entries included — `clean` completes
normally. -/
theorem C10_clean_always_completes (s : St) : ∃ s', clean_body s = .ok s' := by
  have hsteps : ∀ (l : List Path) (st : St),
      ∃ s', seqSteps (l.map (fun p => rmtreeE p true)) st = .ok s' := by
    intro l
    refine seqSteps_ok _ ?_
    intro stp hstp s0
    obtain ⟨p, _, hp⟩ := List.mem_map.mp hstp
    rw [← hp]
    exact rmtreeE_ignore_ok p s0
  obtain ⟨s₁, h1⟩ := hsteps (s.fs.dirs.filter (fun d => d.getLast? = some "bin")) s
  obtain ⟨s₂, h2⟩ := hsteps (s₁.fs.dirs.filter (fun d => d.getLast? = some "obj")) s₁
  by_cases h3 : artifactsDir ∈ s₂.fs.dirs
  · obtain ⟨s₃, h4⟩ := rmtreeE_ignore_ok artifactsDir s₂
    exact ⟨s₃, by simp [clean_body, andThen, h1, h2, h3, h4]⟩
  · exact ⟨s₂, by simp [clean_body, andThen, h1, h2, h3]⟩

end TestRift
